import Mathlib

/-!
Shallow embedding of `proxify.py` (a trading-card print-sheet generator):
the content-extent detector (`get_content_bounding_box`,
`get_content_extents_at_row`), the border-solidity checker
(`check_strip_for_solid_lr_border`), the frame classifier
(`determine_card_type`), the border-normalizing cropper and the card
renderer (`resize_card`), together with proofs of the specification
claims about them.

Images are modelled as a width, a height and a total RGB pixel function;
PIL images of mode RGB/RGBA are read through their first three channels
only, which is exactly what the source does (`pixel_tuple[:3]`).

Floating-point arithmetic in the source is modelled with exact integer
arithmetic.  At every place where the source computes `int(h * f)` for a
zone fraction `f`, or `round(x)` for a millimetre-to-pixel conversion or
a back-projected border width, the double-precision result provably
agrees with the exact rational value for all realistic sizes; each such
spot carries a comment recording the float expression it embeds.
Python's `round` is round-half-to-even, embedded as `rndNEdiv` below.
-/

namespace Proxify

/-- A raster image: dimensions plus a total per-pixel RGB sample
function (channel values are 0-255 in practice, unconstrained in the
model).  Every operation below only reads in-range coordinates, as the
source does. -/
structure Img where
  width : Nat
  height : Nat
  pixel : Nat → Nat → Nat × Nat × Nat

/-- A pixel is "content" iff any of its R, G, B channels exceeds the
threshold (source: `r > threshold or g > threshold or b > threshold`). -/
def isContent (img : Img) (t x y : Nat) : Prop :=
  t < (img.pixel x y).1 ∨ t < (img.pixel x y).2.1 ∨ t < (img.pixel x y).2.2

instance instDecIsContent (img : Img) (t x y : Nat) : Decidable (isContent img t x y) :=
  inferInstanceAs (Decidable (_ ∨ _ ∨ _))

/-- Boolean form of `isContent`, used by the executable scanners. -/
def isContentB (img : Img) (t x y : Nat) : Bool :=
  decide (isContent img t x y)

/-- First index `k < n` with `p k = true` (a left-to-right scan of
`range(n)`, as in the source's pixel loops). -/
def findFirst (p : Nat → Bool) : Nat → Option Nat
  | 0 => none
  | n + 1 =>
    match findFirst p n with
    | some k => some k
    | none => if p n then some n else none

/-- Last index `k < n` with `p k = true` (a right-to-left scan of
`range(n - 1, lo, -1)`, as in the source's reverse pixel loops). -/
def findLast (p : Nat → Bool) : Nat → Option Nat
  | 0 => none
  | n + 1 => if p n then some n else findLast p n

/-- `allB p n` is true iff `p` holds on all of `0, ..., n - 1`
(the source's nested all-pixels loops with early exit). -/
def allB (p : Nat → Bool) : Nat → Bool
  | 0 => true
  | n + 1 => allB p n && p n

/-! ### Configuration constants (source lines 6-62)

The source converts millimetres to pixels with
`round((mm * (1/25.4)) * 1200)` in double precision and Python's
half-to-even `round`.  Every conversion below is far from a rounding
boundary (the closest fractional part is 0.70), so the double result
agrees with exact rational arithmetic; `rndNEdiv a b` is
round-half-to-even of the exact quotient `a / b`. -/

/-- Round-half-to-even of the rational `a / b` (Python 3 `round`). -/
def rndNEdiv (a b : Nat) : Nat :=
  let q := a / b
  let r := a % b
  if 2 * r < b then q
  else if b < 2 * r then q + 1
  else if q % 2 = 0 then q else q + 1

/-- `CARD_WIDTH_MM * MM_TO_IN * DPI = 63.5 * 1200 / 25.4 = 762000 / 254`, rounded. -/
def CARD_WIDTH_PX : Nat := rndNEdiv (635 * 1200) 254

/-- `CARD_HEIGHT_MM * MM_TO_IN * DPI = 88.9 * 1200 / 25.4 = 1066800 / 254`, rounded. -/
def CARD_HEIGHT_PX : Nat := rndNEdiv (889 * 1200) 254

/-- `DESIRED_BORDER_TOP_MM = 3` converted: `3 * 1200 / 25.4 = 36000 / 254`, rounded. -/
def BORDER_TOP_PX : Nat := rndNEdiv (30 * 1200) 254

/-- `DESIRED_BORDER_LEFT_MM = 3` converted. -/
def BORDER_LEFT_PX : Nat := rndNEdiv (30 * 1200) 254

/-- `DESIRED_BORDER_RIGHT_MM = 3` converted. -/
def BORDER_RIGHT_PX : Nat := rndNEdiv (30 * 1200) 254

/-- `DESIRED_BORDER_BOTTOM_MM = 4.1` converted: `49200 / 254`, rounded. -/
def BORDER_BOTTOM_PX : Nat := rndNEdiv (41 * 1200) 254

/-- `EXTENDED_ART_SCAN_OFFSET_Y_MM = 3` converted. -/
def EXTENDED_ART_SCAN_OFFSET_Y_PX : Nat := rndNEdiv (30 * 1200) 254

def FULL_ART_BOTTOM_CROP_PX : Nat := 80

def BLACK_BORDER_THRESHOLD : Nat := 50

def EDGE_ZONE_CHECK_WIDTH_PX : Int := 10

def FORCE_STANDARD_FRAME_TYPE : Bool := false

/-! ### Content Extent Detector (source lines 64-139) -/

/-- Does column `x` contain a content pixel?  (The source marks content
pixels into a temporary mask and asks PIL for its bounding box; a
column is covered by that box iff some pixel of the column is marked.) -/
def colHasContent (img : Img) (t x : Nat) : Bool :=
  (findFirst (fun y => isContentB img t x y) img.height).isSome

/-- Does row `y` contain a content pixel? -/
def rowHasContent (img : Img) (t y : Nat) : Bool :=
  (findFirst (fun x => isContentB img t x y) img.width).isSome

/-- `has_any_content_pixel` of the source's marking loop. -/
def hasAnyContent (img : Img) (t : Nat) : Bool :=
  (findFirst (fun y => rowHasContent img t y) img.height).isSome

/-- `get_content_bounding_box(image, threshold)` (source lines 64-101).
Returns `none` for empty images and for images with no content pixel;
otherwise the PIL `getbbox` of the content mask: `(min content x,
min content y, max content x + 1, max content y + 1)`. -/
def get_content_bounding_box (img : Img) (t : Nat) : Option (Nat × Nat × Nat × Nat) :=
  if img.width = 0 ∨ img.height = 0 then none
  else if hasAnyContent img t = false then none
  else some ((findFirst (colHasContent img t) img.width).getD 0,
             (findFirst (rowHasContent img t) img.height).getD 0,
             (findLast (colHasContent img t) img.width).getD 0 + 1,
             (findLast (rowHasContent img t) img.height).getD 0 + 1)

/-- `get_content_extents_at_row(image, y_row, threshold)` (source lines
103-139): scan row `y` left-to-right for the first content pixel; if
none, return `none` (the source's `(None, None)`); otherwise scan
right-to-left no further left than the first hit for the last content
pixel, initialised to the first hit.  Since the first hit is itself
content, the right-to-left scan over the full width computes the same
column. -/
def get_content_extents_at_row (img : Img) (yRow t : Nat) : Option (Nat × Nat) :=
  match findFirst (fun x => isContentB img t x yRow) img.width with
  | none => none
  | some sx => some (sx, (findLast (fun x => isContentB img t x yRow) img.width).getD sx)

/-! ### Border Solidity Checker (source lines 141-193) -/

/-- One vertical band check of the solidity checker: are the `cw`
columns starting at `off` free of content pixels over the strip's full
height?  (The source's nested `for x_coord ... for y_coord ...` loops
with early exit; the left band has `off = 0`, the right band
`off = strip_w - check_width_px`.) -/
def solid_band (strip : Img) (t off cw : Nat) : Bool :=
  allB (fun x => allB (fun y => !isContentB strip t (off + x) y) strip.height) cw

/-- `check_strip_for_solid_lr_border(strip_image, check_width_px, threshold)`
(source lines 141-193).  The check width is an `Int` because the source
treats non-positive widths explicitly (`check_width_px > 0`); the left
band is checked first and a failure skips the right band. -/
def check_strip_for_solid_lr_border (strip : Img) (cwi : Int) (t : Nat) : Bool :=
  if strip.height = 0 ∨ (strip.width : Int) < 2 * cwi then false
  else
    if (if 0 < cwi then solid_band strip t 0 cwi.toNat else false) = false then false
    else
      (if 0 < cwi then solid_band strip t 0 cwi.toNat else false) &&
      (if 0 < cwi then solid_band strip t (strip.width - cwi.toNat) cwi.toNat else false)

/-! ### Frame Classifier (source lines 195-228) -/

inductive CardType where
  | standard
  | extended_art
  | borderless
deriving DecidableEq

/-- `min_zone_height = max(1, edge_check_pixel_width // 2 if edge_check_pixel_width > 0 else 1)`. -/
def min_zone_height (ecw : Int) : Nat :=
  max 1 (if 0 < ecw then ecw.toNat / 2 else 1)

/-- `top_zone_actual_height = max(min_zone_height, int(height * 0.05))`.
`int(h * 0.05)` in doubles equals `h * 5 / 100 = h / 20` exactly: for
`20 ∣ h` the product rounds to the exact integer, otherwise the
fractional part is at least `1/20`, far above double error. -/
def top_zone_height (h : Nat) (ecw : Int) : Nat :=
  max (min_zone_height ecw) (h * 5 / 100)

/-- The middle zone's `(top_y, actual_height)` (source lines 209-216).
`int(h * 0.50) = h * 50 / 100` and `int(h * 0.60) = h * 60 / 100`
exactly in doubles (same argument as for the top zone).  When the
computed height is clamped up to the minimum and would overrun the
image, the top is pulled up to `max(0, h - actual_height)` (here `Nat`
truncated subtraction). -/
def middle_zone_rect (h : Nat) (ecw : Int) : Nat × Nat :=
  let mzTop := h * 50 / 100
  let mzBot := h * 60 / 100
  let calcH := mzBot - mzTop
  let actualH := max (min_zone_height ecw) calcH
  let top :=
    if actualH = min_zone_height ecw ∧ calcH < min_zone_height ecw then
      (if h < mzTop + actualH then h - actualH else mzTop)
    else mzTop
  (top, actualH)

/-- `image.crop((x0, y0, x1, y1))`: half-open box, out-of-range reads
fill with black (PIL pads crops past the edge with zero pixels). -/
def crop (img : Img) (x0 y0 x1 y1 : Nat) : Img where
  width := x1 - x0
  height := y1 - y0
  pixel := fun x y =>
    if x0 + x < img.width ∧ y0 + y < img.height then img.pixel (x0 + x) (y0 + y)
    else (0, 0, 0)

/-- `determine_card_type(image, threshold, edge_check_pixel_width)`
(source lines 195-228). -/
def determine_card_type (img : Img) (t : Nat) (ecw : Int) : CardType :=
  if img.height < 20 then CardType.borderless
  else
    let topImg := crop img 0 0 img.width (top_zone_height img.height ecw)
    let mz := middle_zone_rect img.height ecw
    let midImg := crop img 0 mz.1 img.width (mz.1 + mz.2)
    let topB := check_strip_for_solid_lr_border topImg ecw t
    let midB := check_strip_for_solid_lr_border midImg ecw t
    if topB && midB then CardType.standard
    else if topB && !midB then CardType.extended_art
    else CardType.borderless

/-! ### Border-Normalizing Cropper and Card Renderer (source lines 230-386) -/

/-- `final_artwork_width = max(1, target_final_card_width_px - BORDER_LEFT_PX - BORDER_RIGHT_PX)`.
Python's `max(1, a - b - c)` on ints equals truncated `Nat` subtraction
followed by `max 1`. -/
def final_artwork_width (W : Nat) : Nat :=
  max 1 (W - BORDER_LEFT_PX - BORDER_RIGHT_PX)

/-- `final_artwork_height = max(1, target_final_card_height_px - BORDER_TOP_PX - BORDER_BOTTOM_PX)`. -/
def final_artwork_height (H : Nat) : Nat :=
  max 1 (H - BORDER_TOP_PX - BORDER_BOTTOM_PX)

/-- One back-projected border width (source lines 299-305):
`scale = fin / c` (or `0` when `c = 0`) and
`keep = round(B / scale) = round(B * c / fin)` when `abs(scale) > 1e-6`,
else `0`.  `fin / c > 1e-6` for positive `c` iff `c < fin * 1000000`. -/
def keep_border_px (B fin c : Nat) : Nat :=
  if c ≠ 0 ∧ c < fin * 1000000 then rndNEdiv (B * c) fin else 0

/-- The proportional crop rectangle (source lines 296-310) for an image
of size `w × h`, a target card of size `W × H` and effective content
extents `(cx0, cy0, cx1, cy1)`: expand the content box outward by the
back-projected border widths, clamped to the image
(`max(0, ...)` is `Nat` truncated subtraction, then `min(w, ...)`,
`min(h, ...)`). -/
def proportional_crop_rect (w h W H cx0 cy0 cx1 cy1 : Nat) : Nat × Nat × Nat × Nat :=
  let c := cx1 - cx0
  let ch := cy1 - cy0
  let kL := keep_border_px BORDER_LEFT_PX (final_artwork_width W) c
  let kT := keep_border_px BORDER_TOP_PX (final_artwork_height H) ch
  let kR := keep_border_px BORDER_RIGHT_PX (final_artwork_width W) c
  let kB := keep_border_px BORDER_BOTTOM_PX (final_artwork_height H) ch
  (cx0 - kL, cy0 - kT, min w (cx1 + kR), min h (cy1 + kB))

/-- The effective content extents used by the cropper (source lines
249-283): the overall bounding box (or the full image when there is
none); for an `extended_art` card with a bounding box, the horizontal
extent is replaced by the row extent sampled at
`content_top_y + scan_offset` when that row is in bounds and has
content. -/
def effective_extents (img : Img) (t scanOff : Nat) (ctype : CardType) : Nat × Nat × Nat × Nat :=
  match get_content_bounding_box img t with
  | none => (0, 0, img.width, img.height)
  | some (cx0, cy0, cx1, cy1) =>
    match ctype with
    | CardType.extended_art =>
      if cy0 + scanOff < img.height then
        match get_content_extents_at_row img (cy0 + scanOff) t with
        | some (sx, ex) => if sx ≤ ex then (sx, cy0, ex, cy1) else (cx0, cy0, cx1, cy1)
        | none => (cx0, cy0, cx1, cy1)
      else (cx0, cy0, cx1, cy1)
    | _ => (cx0, cy0, cx1, cy1)

/-- The full-art (borderless) pre-resize crop (source lines 337-351):
trim `trim` pixels from the bottom; if the trim meets or exceeds the
height, crop to 1 pixel of height; degenerate widths/heights fall back
to fresh 1-pixel images exactly as the source builds them with
`Image.new`. -/
def full_art_crop (img : Img) (trim : Nat) : Img :=
  if 0 < trim then
    if img.height ≤ trim then
      if 0 < img.height then crop img 0 0 img.width 1
      else { width := max 1 img.width, height := 1, pixel := fun _ _ => (0, 0, 0) }
    else if 0 < img.width then crop img 0 0 img.width (max 1 (img.height - trim))
    else { width := 1, height := 1, pixel := fun _ _ => (0, 0, 0) }
  else img

/-- `img.resize((W, H), LANCZOS)`: only the output geometry matters for
the claims; pixels are modelled by coordinate scaling (the resampling
kernel does not affect any claim). -/
def resizeImg (img : Img) (W H : Nat) : Img where
  width := W
  height := H
  pixel := fun x y => img.pixel (x * img.width / W) (y * img.height / H)

/-- The pre-resize stage of `resize_card` (source lines 237-324 and
337-351): classify (unless forced standard), compute effective
extents, then crop by card type with the ordered fallback chain
(proportional crop, then raw effective content box, then the full
original image). -/
def pre_resize_image (img : Img) (W H : Nat) : Img :=
  let card_type :=
    if FORCE_STANDARD_FRAME_TYPE then CardType.standard
    else determine_card_type img BLACK_BORDER_THRESHOLD EDGE_ZONE_CHECK_WIDTH_PX
  match card_type with
  | CardType.borderless => full_art_crop img FULL_ART_BOTTOM_CROP_PX
  | _ =>
    let E := effective_extents img BLACK_BORDER_THRESHOLD EXTENDED_ART_SCAN_OFFSET_Y_PX card_type
    if 0 < E.2.2.1 - E.1 ∧ 0 < E.2.2.2 - E.2.1 then
      let R := proportional_crop_rect img.width img.height W H E.1 E.2.1 E.2.2.1 E.2.2.2
      if R.1 < R.2.2.1 ∧ R.2.1 < R.2.2.2 then crop img R.1 R.2.1 R.2.2.1 R.2.2.2
      else if E.1 < E.2.2.1 ∧ E.2.1 < E.2.2.2 then crop img E.1 E.2.1 E.2.2.1 E.2.2.2
      else img
    else img

/-- The final sizing step (source lines 326-333 and 353-359, identical
in both branches): resize to the target size unless already exact. -/
def fit_to_card (img : Img) (W H : Nat) : Img :=
  if img.width = W ∧ img.height = H then img else resizeImg img W H

/-- The per-card pipeline of `resize_card` after a successful decode
(source lines 232-377).  The brightness and saturation stages are
skipped because both factors are `1.0` in the configuration (source
lines 368-374). -/
def resize_card_img (img : Img) (W H : Nat) : Img :=
  fit_to_card (pre_resize_image img W H) W H

/-- `resize_card(image_path, W, H)` (source lines 230-386).  Loading and
decoding the file is the only fallible step (`FileNotFoundError` and
decode errors are caught and give `None`, lines 379-386); it is
modelled by the `Option Img` argument. -/
def resize_card (loaded : Option Img) (W H : Nat) : Option Img :=
  match loaded with
  | none => none
  | some img => some (resize_card_img img W H)

/-- The printed border width, in final-card pixels, of a border that
occupies `borderSrc` source pixels of a crop of size `cropDim` resized
to `target`: the resize maps the crop linearly onto the card. -/
def scaled_border_px (borderSrc cropDim target : Nat) : ℚ :=
  (borderSrc : ℚ) * (target : ℚ) / (cropDim : ℚ)

/-- The printed left border of the final card obtained by cropping an
image of size `w × h` to the proportional crop rectangle of extents
`(cx0, cy0, cx1, cy1)` and resizing to `W × H`. -/
def final_border_left (w h W H cx0 cy0 cx1 cy1 : Nat) : ℚ :=
  scaled_border_px (cx0 - (proportional_crop_rect w h W H cx0 cy0 cx1 cy1).1)
    ((proportional_crop_rect w h W H cx0 cy0 cx1 cy1).2.2.1 -
      (proportional_crop_rect w h W H cx0 cy0 cx1 cy1).1) W

/-- The printed right border of the final card (see `final_border_left`). -/
def final_border_right (w h W H cx0 cy0 cx1 cy1 : Nat) : ℚ :=
  scaled_border_px ((proportional_crop_rect w h W H cx0 cy0 cx1 cy1).2.2.1 - cx1)
    ((proportional_crop_rect w h W H cx0 cy0 cx1 cy1).2.2.1 -
      (proportional_crop_rect w h W H cx0 cy0 cx1 cy1).1) W

/-- The printed top border of the final card (see `final_border_left`). -/
def final_border_top (w h W H cx0 cy0 cx1 cy1 : Nat) : ℚ :=
  scaled_border_px (cy0 - (proportional_crop_rect w h W H cx0 cy0 cx1 cy1).2.1)
    ((proportional_crop_rect w h W H cx0 cy0 cx1 cy1).2.2.2 -
      (proportional_crop_rect w h W H cx0 cy0 cx1 cy1).2.1) H

/-- The printed bottom border of the final card (see `final_border_left`). -/
def final_border_bottom (w h W H cx0 cy0 cx1 cy1 : Nat) : ℚ :=
  scaled_border_px ((proportional_crop_rect w h W H cx0 cy0 cx1 cy1).2.2.2 - cy1)
    ((proportional_crop_rect w h W H cx0 cy0 cx1 cy1).2.2.2 -
      (proportional_crop_rect w h W H cx0 cy0 cx1 cy1).2.1) H

/-! ### Concrete images used by witnesses and counterexamples -/

/-- A 30 × 40 all-black card with a single 2 × 2 white block at
`(14, 8)`: classified `standard`, content box `(14, 8, 16, 10)`. -/
def imgA : Img where
  width := 30
  height := 40
  pixel := fun x y =>
    if 14 ≤ x ∧ x < 16 ∧ 8 ≤ y ∧ y < 10 then (255, 255, 255) else (0, 0, 0)

/-- A zero-width image of height 3 (classified `borderless`). -/
def imgZeroW : Img where
  width := 0
  height := 3
  pixel := fun _ _ => (0, 0, 0)

/-- A 30 × 20 all-black image. -/
def imgBlack : Img where
  width := 30
  height := 20
  pixel := fun _ _ => (0, 0, 0)

/-- A 5 × 10 all-white image (classified `borderless`: height < 20). -/
def imgSmall : Img where
  width := 5
  height := 10
  pixel := fun _ _ => (255, 255, 255)

/-! ### Basic lemmas about the scan helpers -/

theorem isContentB_eq_true_iff (img : Img) (t x y : Nat) :
    isContentB img t x y = true ↔ isContent img t x y := by
  simp [isContentB]

theorem allB_eq_true_iff (p : Nat → Bool) (n : Nat) :
    allB p n = true ↔ ∀ j, j < n → p j = true := by
  induction n with
  | zero => simp [allB]
  | succ n ih =>
    simp only [allB, Bool.and_eq_true, ih]
    constructor
    · rintro ⟨h1, h2⟩ j hj
      rcases Nat.lt_succ_iff_lt_or_eq.mp hj with h | rfl
      · exact h1 j h
      · exact h2
    · intro h
      exact ⟨fun j hj => h j (Nat.lt_succ_of_lt hj), h n (Nat.lt_succ_self n)⟩

theorem findFirst_mem {p : Nat → Bool} {n k : Nat} (h : findFirst p n = some k) :
    k < n ∧ p k = true := by
  induction n with
  | zero => simp [findFirst] at h
  | succ n ih =>
    simp only [findFirst] at h
    cases hf : findFirst p n with
    | some m =>
      rw [hf] at h
      cases h
      exact ⟨Nat.lt_succ_of_lt (ih hf).1, (ih hf).2⟩
    | none =>
      rw [hf] at h
      by_cases hp : p n = true
      · rw [if_pos hp] at h
        cases h
        exact ⟨Nat.lt_succ_self _, hp⟩
      · rw [if_neg hp] at h
        cases h

theorem findFirst_eq_none_iff {p : Nat → Bool} {n : Nat} :
    findFirst p n = none ↔ ∀ j, j < n → p j = false := by
  induction n with
  | zero => simp [findFirst]
  | succ n ih =>
    simp only [findFirst]
    cases hf : findFirst p n with
    | some m =>
      simp only [reduceCtorEq, false_iff]
      intro hall
      have := hall m (Nat.lt_succ_of_lt (findFirst_mem hf).1)
      rw [(findFirst_mem hf).2] at this
      cases this
    | none =>
      by_cases hp : p n = true
      · simp only [if_pos hp, reduceCtorEq, false_iff]
        intro hall
        have := hall n (Nat.lt_succ_self n)
        rw [hp] at this
        cases this
      · simp only [if_neg hp, true_iff]
        intro j hj
        rcases Nat.lt_succ_iff_lt_or_eq.mp hj with h | rfl
        · exact ih.mp hf j h
        · exact Bool.eq_false_iff.mpr hp

theorem findFirst_min {p : Nat → Bool} {n k : Nat} (h : findFirst p n = some k) :
    ∀ j, j < k → p j = false := by
  induction n with
  | zero => simp [findFirst] at h
  | succ n ih =>
    simp only [findFirst] at h
    cases hf : findFirst p n with
    | some m =>
      rw [hf] at h
      cases h
      exact ih hf
    | none =>
      rw [hf] at h
      by_cases hp : p n = true
      · rw [if_pos hp] at h
        cases h
        exact fun j hj => findFirst_eq_none_iff.mp hf j hj
      · rw [if_neg hp] at h
        cases h

theorem findLast_mem {p : Nat → Bool} {n k : Nat} (h : findLast p n = some k) :
    k < n ∧ p k = true := by
  induction n with
  | zero => simp [findLast] at h
  | succ n ih =>
    simp only [findLast] at h
    by_cases hp : p n = true
    · rw [if_pos hp] at h
      cases h
      exact ⟨Nat.lt_succ_self _, hp⟩
    · rw [if_neg hp] at h
      exact ⟨Nat.lt_succ_of_lt (ih h).1, (ih h).2⟩

theorem findLast_eq_none_iff {p : Nat → Bool} {n : Nat} :
    findLast p n = none ↔ ∀ j, j < n → p j = false := by
  induction n with
  | zero => simp [findLast]
  | succ n ih =>
    simp only [findLast]
    by_cases hp : p n = true
    · simp only [if_pos hp, reduceCtorEq, false_iff]
      intro hall
      have := hall n (Nat.lt_succ_self n)
      rw [hp] at this
      cases this
    · simp only [if_neg hp, ih]
      constructor
      · intro hall j hj
        rcases Nat.lt_succ_iff_lt_or_eq.mp hj with h | rfl
        · exact hall j h
        · exact Bool.eq_false_iff.mpr hp
      · intro hall j hj
        exact hall j (Nat.lt_succ_of_lt hj)

theorem findLast_max {p : Nat → Bool} {n k : Nat} (h : findLast p n = some k) :
    ∀ j, k < j → j < n → p j = false := by
  induction n with
  | zero => simp [findLast] at h
  | succ n ih =>
    simp only [findLast] at h
    by_cases hp : p n = true
    · rw [if_pos hp] at h
      cases h
      intro j hj1 hj2
      omega
    · rw [if_neg hp] at h
      intro j hj1 hj2
      rcases Nat.lt_succ_iff_lt_or_eq.mp hj2 with h2 | rfl
      · exact ih h j hj1 h2
      · exact Bool.eq_false_iff.mpr hp

theorem findFirst_isSome_iff {p : Nat → Bool} {n : Nat} :
    (findFirst p n).isSome = true ↔ ∃ j, j < n ∧ p j = true := by
  constructor
  · intro hs
    cases h : findFirst p n with
    | none => rw [h] at hs; simp at hs
    | some k => exact ⟨k, (findFirst_mem h).1, (findFirst_mem h).2⟩
  · rintro ⟨j, hj, hpj⟩
    cases h : findFirst p n with
    | none =>
      rw [findFirst_eq_none_iff.mp h j hj] at hpj
      cases hpj
    | some k => simp

theorem findLast_isSome_iff {p : Nat → Bool} {n : Nat} :
    (findLast p n).isSome = true ↔ ∃ j, j < n ∧ p j = true := by
  constructor
  · intro hs
    cases h : findLast p n with
    | none => rw [h] at hs; simp at hs
    | some k => exact ⟨k, (findLast_mem h).1, (findLast_mem h).2⟩
  · rintro ⟨j, hj, hpj⟩
    cases h : findLast p n with
    | none =>
      rw [findLast_eq_none_iff.mp h j hj] at hpj
      cases hpj
    | some k => simp

/-! ### Characterization lemmas for the embedded operations -/

theorem solid_band_iff (strip : Img) (t off cw : Nat) :
    solid_band strip t off cw = true ↔
      ∀ x, x < cw → ∀ y, y < strip.height → ¬ isContent strip t (off + x) y := by
  unfold solid_band
  rw [allB_eq_true_iff]
  constructor
  · intro h x hx y hy
    have := (allB_eq_true_iff _ _).mp (h x hx) y hy
    simpa [isContentB] using this
  · intro h x hx
    rw [allB_eq_true_iff]
    intro y hy
    simpa [isContentB] using h x hx y hy

/-- Full characterization of the solidity checker: it returns `true`
iff the guards pass (positive height, width at least twice the check
width, positive check width) and both the leftmost and the rightmost
`check_width` columns are entirely background. -/
theorem check_strip_true_iff (strip : Img) (cwi : Int) (t : Nat) :
    check_strip_for_solid_lr_border strip cwi t = true ↔
      0 < strip.height ∧ 2 * cwi ≤ (strip.width : Int) ∧ 0 < cwi ∧
      (∀ x, x < cwi.toNat → ∀ y, y < strip.height → ¬ isContent strip t x y) ∧
      (∀ x, strip.width - cwi.toNat ≤ x → x < strip.width → ∀ y, y < strip.height →
        ¬ isContent strip t x y) := by
  unfold check_strip_for_solid_lr_border
  by_cases hg : strip.height = 0 ∨ (strip.width : Int) < 2 * cwi
  · rw [if_pos hg]
    simp only [Bool.false_eq_true, false_iff]
    rintro ⟨h1, h2, -, -, -⟩
    rcases hg with h | h
    · omega
    · omega
  · rw [if_neg hg]
    push_neg at hg
    by_cases hpos : 0 < cwi
    · simp only [if_pos hpos]
      have hcww : cwi.toNat ≤ strip.width := by omega
      by_cases hL : solid_band strip t 0 cwi.toNat = true
      · rw [if_neg (by simp [hL]), hL, Bool.true_and]
        rw [solid_band_iff]
        constructor
        · intro hR
          refine ⟨by omega, by omega, hpos, ?_, ?_⟩
          · intro x hx y hy
            simpa using (solid_band_iff strip t 0 cwi.toNat).mp hL x hx y hy
          · intro x hx1 hx2 y hy
            have hx' : x - (strip.width - cwi.toNat) < cwi.toNat := by omega
            have hxeq : strip.width - cwi.toNat + (x - (strip.width - cwi.toNat)) = x := by
              omega
            have := hR (x - (strip.width - cwi.toNat)) hx' y hy
            rwa [hxeq] at this
        · rintro ⟨-, -, -, -, hRt⟩
          intro x hx y hy
          exact hRt (strip.width - cwi.toNat + x) (by omega) (by omega) y hy
      · have hLf : solid_band strip t 0 cwi.toNat = false := Bool.eq_false_iff.mpr hL
        rw [if_pos hLf]
        simp only [Bool.false_eq_true, false_iff]
        rintro ⟨-, -, -, hleft, -⟩
        exact hL ((solid_band_iff strip t 0 cwi.toNat).mpr
          (fun x hx y hy => by simpa using hleft x hx y hy))
    · simp only [if_neg hpos, if_true]
      simp only [Bool.false_eq_true, false_iff]
      rintro ⟨-, -, h3, -, -⟩
      exact hpos h3

theorem colHasContent_iff (img : Img) (t x : Nat) :
    colHasContent img t x = true ↔ ∃ y, y < img.height ∧ isContent img t x y := by
  unfold colHasContent
  rw [findFirst_isSome_iff]
  simp [isContentB]

theorem rowHasContent_iff (img : Img) (t y : Nat) :
    rowHasContent img t y = true ↔ ∃ x, x < img.width ∧ isContent img t x y := by
  unfold rowHasContent
  rw [findFirst_isSome_iff]
  simp [isContentB]

theorem hasAnyContent_iff (img : Img) (t : Nat) :
    hasAnyContent img t = true ↔
      ∃ x, x < img.width ∧ ∃ y, y < img.height ∧ isContent img t x y := by
  unfold hasAnyContent
  rw [findFirst_isSome_iff]
  constructor
  · rintro ⟨y, hy, hrow⟩
    obtain ⟨x, hx, hc⟩ := (rowHasContent_iff img t y).mp hrow
    exact ⟨x, hx, y, hy, hc⟩
  · rintro ⟨x, hx, y, hy, hc⟩
    exact ⟨y, hy, (rowHasContent_iff img t y).mpr ⟨x, hx, hc⟩⟩

/-- What a `some` result of the row-extent scan satisfies: the pair is
ordered, in bounds, both endpoints are content pixels and everything
strictly left of the start is background. -/
theorem row_extents_some_spec {img : Img} {y t sx ex : Nat}
    (h : get_content_extents_at_row img y t = some (sx, ex)) :
    sx ≤ ex ∧ ex < img.width ∧ isContent img t sx y ∧ isContent img t ex y ∧
      ∀ j, j < sx → ¬ isContent img t j y := by
  unfold get_content_extents_at_row at h
  cases hf : findFirst (fun x => isContentB img t x y) img.width with
  | none => rw [hf] at h; cases h
  | some s =>
    rw [hf] at h
    have hs := findFirst_mem hf
    have hmin := findFirst_min hf
    cases hlast : findLast (fun x => isContentB img t x y) img.width with
    | none =>
      have := findLast_eq_none_iff.mp hlast s hs.1
      rw [hs.2] at this
      cases this
    | some e =>
      rw [hlast] at h
      simp only [Option.getD_some, Option.some.injEq, Prod.mk.injEq] at h
      obtain ⟨rfl, rfl⟩ := h
      have he := findLast_mem hlast
      refine ⟨?_, he.1, ?_, ?_, ?_⟩
      · by_contra hlt
        push_neg at hlt
        have := hmin _ hlt
        rw [he.2] at this
        cases this
      · exact (isContentB_eq_true_iff img t _ y).mp hs.2
      · exact (isContentB_eq_true_iff img t _ y).mp he.2
      · intro j hj
        have := hmin j hj
        simpa [isContentB] using this

/-- The row-extent scan finds something iff the row has a content pixel. -/
theorem row_extents_isSome_iff (img : Img) (y t : Nat) :
    (get_content_extents_at_row img y t).isSome = true ↔
      ∃ x, x < img.width ∧ isContent img t x y := by
  unfold get_content_extents_at_row
  cases hf : findFirst (fun x => isContentB img t x y) img.width with
  | none =>
    simp only [Option.isSome_none, Bool.false_eq_true, false_iff]
    rintro ⟨x, hx, hc⟩
    have := findFirst_eq_none_iff.mp hf x hx
    rw [(isContentB_eq_true_iff img t x y).mpr hc] at this
    cases this
  | some s =>
    simp only [Option.isSome_some, true_iff]
    have hs := findFirst_mem hf
    exact ⟨s, hs.1, (isContentB_eq_true_iff img t s y).mp hs.2⟩

/-- The final sizing step always produces the target dimensions. -/
theorem fit_to_card_dims (img : Img) (W H : Nat) :
    (fit_to_card img W H).width = W ∧ (fit_to_card img W H).height = H := by
  unfold fit_to_card
  split
  case isTrue h => exact h
  case isFalse h => exact ⟨rfl, rfl⟩

theorem CARD_WIDTH_PX_eq : CARD_WIDTH_PX = 3000 := by decide

theorem CARD_HEIGHT_PX_eq : CARD_HEIGHT_PX = 4200 := by decide

theorem BORDER_LEFT_PX_eq : BORDER_LEFT_PX = 142 := by decide

theorem BORDER_RIGHT_PX_eq : BORDER_RIGHT_PX = 142 := by decide

theorem BORDER_TOP_PX_eq : BORDER_TOP_PX = 142 := by decide

theorem BORDER_BOTTOM_PX_eq : BORDER_BOTTOM_PX = 194 := by decide

theorem final_artwork_width_card : final_artwork_width CARD_WIDTH_PX = 2716 := by decide

theorem final_artwork_height_card : final_artwork_height CARD_HEIGHT_PX = 3864 := by decide

/-- Round-half-to-even of an exact integer quotient is that quotient. -/
theorem rndNEdiv_of_mod_eq_zero {a b : Nat} (hb : 0 < b) (h : a % b = 0) :
    rndNEdiv a b = a / b := by
  simp only [rndNEdiv, h, Nat.mul_zero]
  rw [if_pos hb]

/-- When the back-projection divides exactly (and the degenerate-scale
guard passes), the kept border is the exact quotient. -/
theorem keep_border_px_exact {B fin c : Nat} (hfin : 0 < fin) (hc : 0 < c)
    (hlt : c < fin * 1000000) (hdvd : B * c % fin = 0) :
    keep_border_px B fin c = B * c / fin := by
  unfold keep_border_px
  rw [if_pos ⟨by omega, hlt⟩]
  exact rndNEdiv_of_mod_eq_zero hfin hdvd

/-- Core exact border arithmetic: if both back-projected borders of one
axis satisfy `fin * k = B * c` exactly, then the border of `k` source
pixels inside a crop of `c + k1 + k2` pixels, scaled to a target of
`fin + B1 + B2` pixels, prints exactly `B1` pixels wide. -/
theorem scaled_border_pair_exact (B1 B2 fin c k1 k2 : Nat)
    (hfin : 0 < fin) (hc : 0 < c)
    (e1 : fin * k1 = B1 * c) (e2 : fin * k2 = B2 * c) :
    scaled_border_px k1 (c + k1 + k2) (fin + B1 + B2) = (B1 : ℚ) := by
  have hk : k1 * B2 = B1 * k2 := by
    have h2 : fin * (k1 * B2) = fin * (B1 * k2) := by
      calc fin * (k1 * B2) = (fin * k1) * B2 := by ring
        _ = (B1 * c) * B2 := by rw [e1]
        _ = (B2 * c) * B1 := by ring
        _ = (fin * k2) * B1 := by rw [e2]
        _ = fin * (B1 * k2) := by ring
    exact Nat.eq_of_mul_eq_mul_left hfin h2
  have hnat : k1 * (fin + B1 + B2) = B1 * (c + k1 + k2) := by
    calc k1 * (fin + B1 + B2) = fin * k1 + k1 * B1 + k1 * B2 := by ring
      _ = B1 * c + k1 * B1 + B1 * k2 := by rw [e1, hk]
      _ = B1 * (c + k1 + k2) := by ring
  unfold scaled_border_px
  have hden : ((c + k1 + k2 : Nat) : ℚ) ≠ 0 := by
    exact_mod_cast (by omega : (c + k1 + k2) ≠ 0)
  rw [div_eq_iff hden]
  push_cast
  exact_mod_cast hnat

/-! ### Claim C8 -/

/-- Claim C8: `is_solid_lr_border` is monotone non-increasing in the
edge width: for a fixed strip and threshold, and edge widths
`0 < w1 ≤ w2` with the strip at least `2 * w2` wide, a `true` check at
`w2` implies a `true` check at `w1` (widening the band can only turn
`true` into `false`). -/
theorem c8_edge_width_monotone (strip : Img) (t : Nat) (w1 w2 : Int)
    (h1 : 0 < w1) (h12 : w1 ≤ w2) (hw : 2 * w2 ≤ (strip.width : Int))
    (htrue : check_strip_for_solid_lr_border strip w2 t = true) :
    check_strip_for_solid_lr_border strip w1 t = true := by
  obtain ⟨hh, -, -, hl, hr⟩ := (check_strip_true_iff strip w2 t).mp htrue
  rw [check_strip_true_iff]
  refine ⟨hh, by omega, h1, ?_, ?_⟩
  · intro x hx y hy
    exact hl x (by omega) y hy
  · intro x hx1 hx2 y hy
    exact hr x (by omega) hx2 y hy

/-- Witness for C8: an all-black 30 × 20 strip is solid at width 10,
hence (by `c8_edge_width_monotone`) also at width 3. -/
theorem c8_edge_width_monotone_witness :
    (0 : Int) < 3 ∧ (3 : Int) ≤ 10 ∧ 2 * (10 : Int) ≤ (imgBlack.width : Int) ∧
      check_strip_for_solid_lr_border imgBlack 3 50 = true :=
  ⟨by decide, by decide, by decide,
    c8_edge_width_monotone imgBlack 50 3 10 (by decide) (by decide) (by decide) (by decide)⟩

/-! ### Claim C9 -/

/-- Claim C9: the solidity checker returns `false` whenever the strip
is narrower than `2 * edge_width`, has zero height, or the edge width
is non-positive; otherwise it returns `true` iff every pixel of the
leftmost `edge_width` columns and of the rightmost `edge_width`
columns, over the strip's full height, is background. -/
theorem c9_solid_border_spec (strip : Img) (cwi : Int) (t : Nat) :
    (((strip.width : Int) < 2 * cwi ∨ strip.height = 0 ∨ cwi ≤ 0) →
      check_strip_for_solid_lr_border strip cwi t = false) ∧
    (0 < cwi → 2 * cwi ≤ (strip.width : Int) → 0 < strip.height →
      (check_strip_for_solid_lr_border strip cwi t = true ↔
        (∀ x, x < cwi.toNat → ∀ y, y < strip.height → ¬ isContent strip t x y) ∧
        (∀ x, strip.width - cwi.toNat ≤ x → x < strip.width → ∀ y, y < strip.height →
          ¬ isContent strip t x y))) := by
  constructor
  · intro hbad
    cases hc : check_strip_for_solid_lr_border strip cwi t with
    | false => rfl
    | true =>
      obtain ⟨h1, h2, h3, -, -⟩ := (check_strip_true_iff strip cwi t).mp hc
      rcases hbad with h | h | h <;> omega
  · intro h1 h2 h3
    rw [check_strip_true_iff]
    constructor
    · rintro ⟨-, -, -, hl, hr⟩
      exact ⟨hl, hr⟩
    · rintro ⟨hl, hr⟩
      exact ⟨h3, h2, h1, hl, hr⟩

/-- Witness for C9 at a concrete all-black strip with edge width 10. -/
theorem c9_solid_border_spec_witness :
    (0 : Int) < 10 ∧ 2 * (10 : Int) ≤ (imgBlack.width : Int) ∧ 0 < imgBlack.height ∧
      check_strip_for_solid_lr_border imgBlack 10 50 = true :=
  ⟨by decide, by decide, by decide,
    ((c9_solid_border_spec imgBlack 10 50).2 (by decide) (by decide) (by decide)).mpr
      ⟨fun x _ y _ => by simp [isContent, imgBlack],
       fun x _ _ y _ => by simp [isContent, imgBlack]⟩⟩

/-! ### Claim C10 -/

/-- Claim C10: for every in-bounds row, the row-extent scan returns
nothing or an ordered pair `(sx, ex)` with `sx ≤ ex < width`, content
pixels at both endpoints and only background strictly left of `sx`; in
particular the caller's guard `cx_at_row_start <= cx_at_row_end` can
never reject a non-`None` result. -/
theorem c10_row_extent_spec (img : Img) (y t : Nat) (_hy : y < img.height) :
    get_content_extents_at_row img y t = none ∨
      ∃ sx ex, get_content_extents_at_row img y t = some (sx, ex) ∧
        sx ≤ ex ∧ ex < img.width ∧ isContent img t sx y ∧ isContent img t ex y ∧
        ∀ j, j < sx → ¬ isContent img t j y := by
  cases h : get_content_extents_at_row img y t with
  | none => exact Or.inl rfl
  | some p =>
    obtain ⟨sx, ex⟩ := p
    exact Or.inr ⟨sx, ex, rfl, row_extents_some_spec h⟩

/-- Witness for C10 at row 8 of `imgA` (extents `(14, 15)`). -/
theorem c10_row_extent_spec_witness :
    8 < imgA.height ∧
      (get_content_extents_at_row imgA 8 50 = none ∨
        ∃ sx ex, get_content_extents_at_row imgA 8 50 = some (sx, ex) ∧
          sx ≤ ex ∧ ex < imgA.width ∧ isContent imgA 50 sx 8 ∧ isContent imgA 50 ex 8 ∧
          ∀ j, j < sx → ¬ isContent imgA 50 j 8) :=
  ⟨by decide, c10_row_extent_spec imgA 8 50 (by decide)⟩

/-! ### Claim C2 -/

/-- Claim C2: the classifier returns `borderless` unconditionally for
images shorter than 20 pixels; otherwise `standard` when both the top
zone and the middle zone pass the solid left/right border check,
`extended_art` when only the top zone passes, and `borderless` when
the top zone fails (regardless of the middle zone). -/
theorem c2_frame_classification (img : Img) (t : Nat) (e : Int) :
    (img.height < 20 → determine_card_type img t e = CardType.borderless) ∧
    (20 ≤ img.height →
      determine_card_type img t e =
        (if check_strip_for_solid_lr_border
              (crop img 0 0 img.width (top_zone_height img.height e)) e t then
          (if check_strip_for_solid_lr_border
                (crop img 0 (middle_zone_rect img.height e).1 img.width
                  ((middle_zone_rect img.height e).1 + (middle_zone_rect img.height e).2)) e t
            then CardType.standard else CardType.extended_art)
        else CardType.borderless)) := by
  constructor
  · intro h
    unfold determine_card_type
    rw [if_pos h]
  · intro h
    unfold determine_card_type
    rw [if_neg (by omega)]
    cases htop : check_strip_for_solid_lr_border
        (crop img 0 0 img.width (top_zone_height img.height e)) e t <;>
      cases hmid : check_strip_for_solid_lr_border
          (crop img 0 (middle_zone_rect img.height e).1 img.width
            ((middle_zone_rect img.height e).1 + (middle_zone_rect img.height e).2)) e t <;>
        simp [htop, hmid]

/-- Witness for C2: `imgA` is tall enough, both zones are solid. -/
theorem c2_frame_classification_witness :
    determine_card_type imgA 50 10 = CardType.standard := by
  rw [(c2_frame_classification imgA 50 10).2 (by decide)]
  decide

/-! ### Claim C5 (corrected) -/

/-- Claim C5 counterexample: a zero-width image of height 3 is
classified `borderless`, and for trim `T = 1 < 3 = H` the pre-resize
crop is the source's 1 × 1 `Image.new` fallback, whose height is 1,
not `H - T = 2`. -/
theorem c5_full_art_trim_cex :
    determine_card_type imgZeroW BLACK_BORDER_THRESHOLD EDGE_ZONE_CHECK_WIDTH_PX
        = CardType.borderless ∧
      0 < imgZeroW.height ∧ (0 : Nat) < 1 ∧ (1 : Nat) < imgZeroW.height ∧
      (full_art_crop imgZeroW 1).height ≠ imgZeroW.height - 1 := by
  decide

/-- Claim C5 (amended with positive width): for a borderless-classified
image of positive width and height `H > 0` and a configured bottom trim
`T > 0`, the pre-resize crop has height exactly `H - T` (and the full
original width) when `T < H`, and height exactly 1 when `T ≥ H`. -/
theorem c5_full_art_trim (img : Img) (T : Nat)
    (hw : 0 < img.width) (hh : 0 < img.height) (hT : 0 < T)
    (_hb : determine_card_type img BLACK_BORDER_THRESHOLD EDGE_ZONE_CHECK_WIDTH_PX
        = CardType.borderless) :
    (T < img.height →
      (full_art_crop img T).height = img.height - T ∧
      (full_art_crop img T).width = img.width) ∧
    (img.height ≤ T → (full_art_crop img T).height = 1) := by
  unfold full_art_crop
  rw [if_pos hT]
  constructor
  · intro hTh
    rw [if_neg (by omega), if_pos hw]
    constructor
    · simp only [crop]
      omega
    · simp only [crop]
      omega
  · intro hhT
    rw [if_pos hhT, if_pos hh]
    simp only [crop]

/-- Witness for C5 at the 5 × 10 borderless `imgSmall` with trim 3. -/
theorem c5_full_art_trim_witness :
    (3 : Nat) < imgSmall.height ∧
      (full_art_crop imgSmall 3).height = imgSmall.height - 3 ∧
      (full_art_crop imgSmall 3).width = imgSmall.width :=
  ⟨by decide,
    (c5_full_art_trim imgSmall 3 (by decide) (by decide) (by decide) (by decide)).1 (by decide)⟩

/-! ### Claim C7 (corrected) -/

/-- Claim C7 counterexample: for a 20-pixel-tall image and the positive
edge check width 100 the minimum zone height is 50, the clamp pulls the
middle zone's top to 0 and the zone still ends at row 50, past the
bottom of the image. -/
theorem c7_middle_zone_bounds_cex :
    20 ≤ imgBlack.height ∧ (0 : Int) < 100 ∧
      imgBlack.height <
        (middle_zone_rect imgBlack.height 100).1 +
          (middle_zone_rect imgBlack.height 100).2 := by
  decide

/-- Claim C7 (amended): for images of height at least 20 and positive
edge check width, the middle zone stays within the image bounds
provided the minimum zone height `max(1, edge_width / 2)` does not
exceed the image height. -/
theorem c7_middle_zone_bounds (img : Img) (e : Int)
    (h20 : 20 ≤ img.height) (_he : 0 < e)
    (hmz : min_zone_height e ≤ img.height) :
    (middle_zone_rect img.height e).1 + (middle_zone_rect img.height e).2 ≤ img.height := by
  have h1 : 1 ≤ min_zone_height e := le_max_left 1 _
  simp only [middle_zone_rect]
  set m := min_zone_height e with hm
  split_ifs <;> omega

/-- Witness for C7 on `imgA` (height 40) with edge width 10
(minimum zone height 5 ≤ 40). -/
theorem c7_middle_zone_bounds_witness :
    (middle_zone_rect imgA.height 10).1 + (middle_zone_rect imgA.height 10).2 ≤ imgA.height :=
  c7_middle_zone_bounds imgA 10 (by decide) (by decide) (by decide)

/-! ### Claim C3 -/

/-- Claim C3: `get_content_bounding_box` returns `none` exactly when
the image has no content pixel (including all zero-width or zero-height
images); and every returned box is non-degenerate, in bounds, contains
every content pixel (everything strictly outside is background) and has
at least one content pixel on each of its four edges. -/
theorem c3_content_bbox (img : Img) (t : Nat) :
    (get_content_bounding_box img t = none ↔
      ∀ x, x < img.width → ∀ y, y < img.height → ¬ isContent img t x y) ∧
    (∀ x0 y0 x1 y1, get_content_bounding_box img t = some (x0, y0, x1, y1) →
      x0 < x1 ∧ y0 < y1 ∧ x1 ≤ img.width ∧ y1 ≤ img.height ∧
      (∀ x, x < img.width → ∀ y, y < img.height → isContent img t x y →
        x0 ≤ x ∧ x < x1 ∧ y0 ≤ y ∧ y < y1) ∧
      (∃ y, y < img.height ∧ isContent img t x0 y) ∧
      (∃ y, y < img.height ∧ isContent img t (x1 - 1) y) ∧
      (∃ x, x < img.width ∧ isContent img t x y0) ∧
      (∃ x, x < img.width ∧ isContent img t x (y1 - 1))) := by
  constructor
  · unfold get_content_bounding_box
    by_cases hz : img.width = 0 ∨ img.height = 0
    · rw [if_pos hz]
      simp only [true_iff]
      intro x hx y hy _
      rcases hz with h | h <;> omega
    · rw [if_neg hz]
      by_cases hac : hasAnyContent img t = false
      · rw [if_pos hac]
        simp only [true_iff]
        intro x hx y hy hc
        have := (hasAnyContent_iff img t).mpr ⟨x, hx, y, hy, hc⟩
        rw [hac] at this
        cases this
      · rw [if_neg hac]
        simp only [reduceCtorEq, false_iff]
        intro hall
        have htrue : hasAnyContent img t = true := by
          cases hval : hasAnyContent img t
          · exact absurd hval hac
          · rfl
        obtain ⟨x, hx, y, hy, hc⟩ := (hasAnyContent_iff img t).mp htrue
        exact hall x hx y hy hc
  · intro x0 y0 x1 y1 hsome
    unfold get_content_bounding_box at hsome
    by_cases hz : img.width = 0 ∨ img.height = 0
    · rw [if_pos hz] at hsome
      cases hsome
    · rw [if_neg hz] at hsome
      by_cases hac : hasAnyContent img t = false
      · rw [if_pos hac] at hsome
        cases hsome
      · rw [if_neg hac] at hsome
        have htrue : hasAnyContent img t = true := by
          cases hval : hasAnyContent img t
          · exact absurd hval hac
          · rfl
        obtain ⟨xc, hxc, yc, hyc, hcc⟩ := (hasAnyContent_iff img t).mp htrue
        obtain ⟨a0, ha0⟩ : ∃ k, findFirst (colHasContent img t) img.width = some k := by
          cases hf : findFirst (colHasContent img t) img.width with
          | none =>
            have := findFirst_eq_none_iff.mp hf xc hxc
            rw [(colHasContent_iff img t xc).mpr ⟨yc, hyc, hcc⟩] at this
            cases this
          | some k => exact ⟨k, rfl⟩
        obtain ⟨b0, hb0⟩ : ∃ k, findFirst (rowHasContent img t) img.height = some k := by
          cases hf : findFirst (rowHasContent img t) img.height with
          | none =>
            have := findFirst_eq_none_iff.mp hf yc hyc
            rw [(rowHasContent_iff img t yc).mpr ⟨xc, hxc, hcc⟩] at this
            cases this
          | some k => exact ⟨k, rfl⟩
        obtain ⟨a1, ha1⟩ : ∃ k, findLast (colHasContent img t) img.width = some k := by
          cases hf : findLast (colHasContent img t) img.width with
          | none =>
            have := findLast_eq_none_iff.mp hf xc hxc
            rw [(colHasContent_iff img t xc).mpr ⟨yc, hyc, hcc⟩] at this
            cases this
          | some k => exact ⟨k, rfl⟩
        obtain ⟨b1, hb1⟩ : ∃ k, findLast (rowHasContent img t) img.height = some k := by
          cases hf : findLast (rowHasContent img t) img.height with
          | none =>
            have := findLast_eq_none_iff.mp hf yc hyc
            rw [(rowHasContent_iff img t yc).mpr ⟨xc, hxc, hcc⟩] at this
            cases this
          | some k => exact ⟨k, rfl⟩
        rw [ha0, hb0, ha1, hb1] at hsome
        simp only [Option.getD_some, Option.some.injEq, Prod.mk.injEq] at hsome
        obtain ⟨rfl, rfl, rfl, rfl⟩ := hsome
        have hca0 := findFirst_mem ha0
        have hca0min := findFirst_min ha0
        have hcb0 := findFirst_mem hb0
        have hcb0min := findFirst_min hb0
        have hca1 := findLast_mem ha1
        have hca1max := findLast_max ha1
        have hcb1 := findLast_mem hb1
        have hcb1max := findLast_max hb1
        have ha0le : a0 ≤ a1 := by
          by_contra hlt
          push_neg at hlt
          have := hca0min a1 hlt
          rw [hca1.2] at this
          cases this
        have hb0le : b0 ≤ b1 := by
          by_contra hlt
          push_neg at hlt
          have := hcb0min b1 hlt
          rw [hcb1.2] at this
          cases this
        have ha1w : a1 < img.width := hca1.1
        have hb1h : b1 < img.height := hcb1.1
        refine ⟨by omega, by omega, by omega, by omega, ?_, ?_, ?_, ?_, ?_⟩
        · intro x hx y hy hc
          have hcol : colHasContent img t x = true :=
            (colHasContent_iff img t x).mpr ⟨y, hy, hc⟩
          have hrow : rowHasContent img t y = true :=
            (rowHasContent_iff img t y).mpr ⟨x, hx, hc⟩
          refine ⟨?_, ?_, ?_, ?_⟩
          · by_contra hlt
            push_neg at hlt
            have := hca0min x hlt
            rw [hcol] at this
            cases this
          · by_contra hlt
            push_neg at hlt
            have := hca1max x (by omega) hx
            rw [hcol] at this
            cases this
          · by_contra hlt
            push_neg at hlt
            have := hcb0min y hlt
            rw [hrow] at this
            cases this
          · by_contra hlt
            push_neg at hlt
            have := hcb1max y (by omega) hy
            rw [hrow] at this
            cases this
        · exact (colHasContent_iff img t a0).mp hca0.2
        · rw [Nat.add_sub_cancel]
          exact (colHasContent_iff img t a1).mp hca1.2
        · exact (rowHasContent_iff img t b0).mp hcb0.2
        · rw [Nat.add_sub_cancel]
          exact (rowHasContent_iff img t b1).mp hcb1.2

/-- Witness for C3 on `imgA`: the box is `(14, 8, 16, 10)` and its left
edge holds a content pixel. -/
theorem c3_content_bbox_witness :
    get_content_bounding_box imgA 50 = some (14, 8, 16, 10) ∧
      ∃ y, y < imgA.height ∧ isContent imgA 50 14 y :=
  ⟨by decide, ((c3_content_bbox imgA 50).2 14 8 16 10 (by decide)).2.2.2.2.2.1⟩

/-! ### Claim C4 -/

/-- Claim C4: for an `extended_art` image with an overall content box
`(cx0, cy0, cx1, cy1)`, the effective vertical extent equals `cy0`,
`cy1` unchanged in every case; the horizontal extent is replaced by the
row extent sampled at `cy0 + scan_offset` when that row is in bounds
and has content, and otherwise (row out of bounds, or no content on
the row) the overall box's horizontal extent is kept, without error. -/
theorem c4_extended_art_extents (img : Img) (t off cx0 cy0 cx1 cy1 : Nat)
    (hb : get_content_bounding_box img t = some (cx0, cy0, cx1, cy1)) :
    ((effective_extents img t off CardType.extended_art).2.1 = cy0 ∧
     (effective_extents img t off CardType.extended_art).2.2.2 = cy1) ∧
    (img.height ≤ cy0 + off →
      effective_extents img t off CardType.extended_art = (cx0, cy0, cx1, cy1)) ∧
    (cy0 + off < img.height →
      get_content_extents_at_row img (cy0 + off) t = none →
      effective_extents img t off CardType.extended_art = (cx0, cy0, cx1, cy1)) ∧
    (∀ sx ex, cy0 + off < img.height →
      get_content_extents_at_row img (cy0 + off) t = some (sx, ex) →
      effective_extents img t off CardType.extended_art = (sx, cy0, ex, cy1)) := by
  unfold effective_extents
  rw [hb]
  dsimp only
  by_cases hin : cy0 + off < img.height
  · rw [if_pos hin]
    cases hrow : get_content_extents_at_row img (cy0 + off) t with
    | none =>
      refine ⟨⟨rfl, rfl⟩, ?_, ?_, ?_⟩
      · intro h
        omega
      · intro _ _
        rfl
      · intro sx ex _ hsome
        simp at hsome
    | some p =>
      obtain ⟨sx0, ex0⟩ := p
      have hle : sx0 ≤ ex0 := (row_extents_some_spec hrow).1
      dsimp only
      rw [if_pos hle]
      refine ⟨⟨rfl, rfl⟩, ?_, ?_, ?_⟩
      · intro h
        omega
      · intro _ hnone
        simp at hnone
      · intro sx ex _ hsome
        simp only [Option.some.injEq, Prod.mk.injEq] at hsome
        obtain ⟨rfl, rfl⟩ := hsome
        rfl
  · rw [if_neg hin]
    exact ⟨⟨rfl, rfl⟩, fun _ => rfl, fun h _ => absurd h hin, fun sx ex h _ => absurd h hin⟩

/-- Witness for C4 on `imgA` with scan offset 0: the sample row 8 is in
bounds and its extents `(14, 15)` replace the horizontal extent while
the vertical extent stays `(8, 10)`. -/
theorem c4_extended_art_extents_witness :
    get_content_bounding_box imgA 50 = some (14, 8, 16, 10) ∧
      effective_extents imgA 50 0 CardType.extended_art = (14, 8, 15, 10) :=
  ⟨by decide,
    (c4_extended_art_extents imgA 50 0 14 8 16 10 (by decide)).2.2.2 14 15
      (by decide) (by decide)⟩

/-! ### Claim C6 -/

/-- Claim C6: `resize_card` returns `None` exactly for a failed load
(missing or undecodable file, the `none` input; lines 379-386 catch
exactly those), and for every successfully loaded image it returns an
image of exactly the target card dimensions `CARD_WIDTH_PX ×
CARD_HEIGHT_PX`; the pipeline is a total function, every internal
degeneracy falling through the fallback chain to some fixed-size
image. -/
theorem c6_render_contract (loaded : Option Img) :
    (loaded = none → resize_card loaded CARD_WIDTH_PX CARD_HEIGHT_PX = none) ∧
    (∀ img, loaded = some img →
      resize_card loaded CARD_WIDTH_PX CARD_HEIGHT_PX =
        some (resize_card_img img CARD_WIDTH_PX CARD_HEIGHT_PX) ∧
      (resize_card_img img CARD_WIDTH_PX CARD_HEIGHT_PX).width = CARD_WIDTH_PX ∧
      (resize_card_img img CARD_WIDTH_PX CARD_HEIGHT_PX).height = CARD_HEIGHT_PX) := by
  constructor
  · rintro rfl
    rfl
  · rintro img rfl
    exact ⟨rfl, (fit_to_card_dims _ _ _).1, (fit_to_card_dims _ _ _).2⟩

/-- Witness for C6: a failed load gives `None`; `imgA` renders at the
exact card size. -/
theorem c6_render_contract_witness :
    resize_card none CARD_WIDTH_PX CARD_HEIGHT_PX = none ∧
      (resize_card_img imgA CARD_WIDTH_PX CARD_HEIGHT_PX).width = CARD_WIDTH_PX ∧
      (resize_card_img imgA CARD_WIDTH_PX CARD_HEIGHT_PX).height = CARD_HEIGHT_PX :=
  ⟨(c6_render_contract none).1 rfl, ((c6_render_contract (some imgA)).2 imgA rfl).2⟩

/-! ### Claim C1 (corrected) -/

/-- Exact left border: when both horizontal back-projections are exact
multiples and no clamping occurs, the printed left border is exactly
the target. -/
theorem final_border_left_exact (w h W H cx0 cy0 cx1 cy1 : Nat)
    (hfa : final_artwork_width W = W - BORDER_LEFT_PX - BORDER_RIGHT_PX)
    (hW : BORDER_LEFT_PX + BORDER_RIGHT_PX ≤ W)
    (hc : 0 < cx1 - cx0)
    (ekL : keep_border_px BORDER_LEFT_PX (final_artwork_width W) (cx1 - cx0) *
        final_artwork_width W = BORDER_LEFT_PX * (cx1 - cx0))
    (ekR : keep_border_px BORDER_RIGHT_PX (final_artwork_width W) (cx1 - cx0) *
        final_artwork_width W = BORDER_RIGHT_PX * (cx1 - cx0))
    (hnL : keep_border_px BORDER_LEFT_PX (final_artwork_width W) (cx1 - cx0) ≤ cx0)
    (hnR : cx1 + keep_border_px BORDER_RIGHT_PX (final_artwork_width W) (cx1 - cx0) ≤ w) :
    final_border_left w h W H cx0 cy0 cx1 cy1 = (BORDER_LEFT_PX : ℚ) := by
  have hfin : 0 < final_artwork_width W :=
    Nat.lt_of_lt_of_le Nat.zero_lt_one (le_max_left _ _)
  unfold final_border_left
  simp only [proportional_crop_rect]
  set kL := keep_border_px BORDER_LEFT_PX (final_artwork_width W) (cx1 - cx0) with hkL
  set kR := keep_border_px BORDER_RIGHT_PX (final_artwork_width W) (cx1 - cx0) with hkR
  have h1 : cx0 - (cx0 - kL) = kL := by omega
  have h2 : min w (cx1 + kR) = cx1 + kR := min_eq_right hnR
  rw [h1, h2]
  have h3 : cx1 + kR - (cx0 - kL) = (cx1 - cx0) + kL + kR := by omega
  rw [h3]
  have hWeq : W = final_artwork_width W + BORDER_LEFT_PX + BORDER_RIGHT_PX := by omega
  rw [hWeq]
  exact scaled_border_pair_exact BORDER_LEFT_PX BORDER_RIGHT_PX
    (final_artwork_width W) (cx1 - cx0) kL kR hfin hc
    (by rw [Nat.mul_comm]; exact ekL) (by rw [Nat.mul_comm]; exact ekR)

/-- Exact right border (see `final_border_left_exact`). -/
theorem final_border_right_exact (w h W H cx0 cy0 cx1 cy1 : Nat)
    (hfa : final_artwork_width W = W - BORDER_LEFT_PX - BORDER_RIGHT_PX)
    (hW : BORDER_LEFT_PX + BORDER_RIGHT_PX ≤ W)
    (hc : 0 < cx1 - cx0)
    (ekL : keep_border_px BORDER_LEFT_PX (final_artwork_width W) (cx1 - cx0) *
        final_artwork_width W = BORDER_LEFT_PX * (cx1 - cx0))
    (ekR : keep_border_px BORDER_RIGHT_PX (final_artwork_width W) (cx1 - cx0) *
        final_artwork_width W = BORDER_RIGHT_PX * (cx1 - cx0))
    (hnL : keep_border_px BORDER_LEFT_PX (final_artwork_width W) (cx1 - cx0) ≤ cx0)
    (hnR : cx1 + keep_border_px BORDER_RIGHT_PX (final_artwork_width W) (cx1 - cx0) ≤ w) :
    final_border_right w h W H cx0 cy0 cx1 cy1 = (BORDER_RIGHT_PX : ℚ) := by
  have hfin : 0 < final_artwork_width W :=
    Nat.lt_of_lt_of_le Nat.zero_lt_one (le_max_left _ _)
  unfold final_border_right
  simp only [proportional_crop_rect]
  set kL := keep_border_px BORDER_LEFT_PX (final_artwork_width W) (cx1 - cx0) with hkL
  set kR := keep_border_px BORDER_RIGHT_PX (final_artwork_width W) (cx1 - cx0) with hkR
  have h2 : min w (cx1 + kR) = cx1 + kR := min_eq_right hnR
  rw [h2]
  have h1 : cx1 + kR - cx1 = kR := by omega
  have h3 : cx1 + kR - (cx0 - kL) = (cx1 - cx0) + kR + kL := by omega
  rw [h1, h3]
  have hWeq : W = final_artwork_width W + BORDER_RIGHT_PX + BORDER_LEFT_PX := by omega
  rw [hWeq]
  exact scaled_border_pair_exact BORDER_RIGHT_PX BORDER_LEFT_PX
    (final_artwork_width W) (cx1 - cx0) kR kL hfin hc
    (by rw [Nat.mul_comm]; exact ekR) (by rw [Nat.mul_comm]; exact ekL)

/-- Exact top border (see `final_border_left_exact`). -/
theorem final_border_top_exact (w h W H cx0 cy0 cx1 cy1 : Nat)
    (hfa : final_artwork_height H = H - BORDER_TOP_PX - BORDER_BOTTOM_PX)
    (hH : BORDER_TOP_PX + BORDER_BOTTOM_PX ≤ H)
    (hc : 0 < cy1 - cy0)
    (ekT : keep_border_px BORDER_TOP_PX (final_artwork_height H) (cy1 - cy0) *
        final_artwork_height H = BORDER_TOP_PX * (cy1 - cy0))
    (ekB : keep_border_px BORDER_BOTTOM_PX (final_artwork_height H) (cy1 - cy0) *
        final_artwork_height H = BORDER_BOTTOM_PX * (cy1 - cy0))
    (hnT : keep_border_px BORDER_TOP_PX (final_artwork_height H) (cy1 - cy0) ≤ cy0)
    (hnB : cy1 + keep_border_px BORDER_BOTTOM_PX (final_artwork_height H) (cy1 - cy0) ≤ h) :
    final_border_top w h W H cx0 cy0 cx1 cy1 = (BORDER_TOP_PX : ℚ) := by
  have hfin : 0 < final_artwork_height H :=
    Nat.lt_of_lt_of_le Nat.zero_lt_one (le_max_left _ _)
  unfold final_border_top
  simp only [proportional_crop_rect]
  set kT := keep_border_px BORDER_TOP_PX (final_artwork_height H) (cy1 - cy0) with hkT
  set kB := keep_border_px BORDER_BOTTOM_PX (final_artwork_height H) (cy1 - cy0) with hkB
  have h1 : cy0 - (cy0 - kT) = kT := by omega
  have h2 : min h (cy1 + kB) = cy1 + kB := min_eq_right hnB
  rw [h1, h2]
  have h3 : cy1 + kB - (cy0 - kT) = (cy1 - cy0) + kT + kB := by omega
  rw [h3]
  have hHeq : H = final_artwork_height H + BORDER_TOP_PX + BORDER_BOTTOM_PX := by omega
  rw [hHeq]
  exact scaled_border_pair_exact BORDER_TOP_PX BORDER_BOTTOM_PX
    (final_artwork_height H) (cy1 - cy0) kT kB hfin hc
    (by rw [Nat.mul_comm]; exact ekT) (by rw [Nat.mul_comm]; exact ekB)

/-- Exact bottom border (see `final_border_left_exact`). -/
theorem final_border_bottom_exact (w h W H cx0 cy0 cx1 cy1 : Nat)
    (hfa : final_artwork_height H = H - BORDER_TOP_PX - BORDER_BOTTOM_PX)
    (hH : BORDER_TOP_PX + BORDER_BOTTOM_PX ≤ H)
    (hc : 0 < cy1 - cy0)
    (ekT : keep_border_px BORDER_TOP_PX (final_artwork_height H) (cy1 - cy0) *
        final_artwork_height H = BORDER_TOP_PX * (cy1 - cy0))
    (ekB : keep_border_px BORDER_BOTTOM_PX (final_artwork_height H) (cy1 - cy0) *
        final_artwork_height H = BORDER_BOTTOM_PX * (cy1 - cy0))
    (hnT : keep_border_px BORDER_TOP_PX (final_artwork_height H) (cy1 - cy0) ≤ cy0)
    (hnB : cy1 + keep_border_px BORDER_BOTTOM_PX (final_artwork_height H) (cy1 - cy0) ≤ h) :
    final_border_bottom w h W H cx0 cy0 cx1 cy1 = (BORDER_BOTTOM_PX : ℚ) := by
  have hfin : 0 < final_artwork_height H :=
    Nat.lt_of_lt_of_le Nat.zero_lt_one (le_max_left _ _)
  unfold final_border_bottom
  simp only [proportional_crop_rect]
  set kT := keep_border_px BORDER_TOP_PX (final_artwork_height H) (cy1 - cy0) with hkT
  set kB := keep_border_px BORDER_BOTTOM_PX (final_artwork_height H) (cy1 - cy0) with hkB
  have h2 : min h (cy1 + kB) = cy1 + kB := min_eq_right hnB
  rw [h2]
  have h1 : cy1 + kB - cy1 = kB := by omega
  have h3 : cy1 + kB - (cy0 - kT) = (cy1 - cy0) + kB + kT := by omega
  rw [h1, h3]
  have hHeq : H = final_artwork_height H + BORDER_BOTTOM_PX + BORDER_TOP_PX := by omega
  rw [hHeq]
  exact scaled_border_pair_exact BORDER_BOTTOM_PX BORDER_TOP_PX
    (final_artwork_height H) (cy1 - cy0) kB kT hfin hc
    (by rw [Nat.mul_comm]; exact ekB) (by rw [Nat.mul_comm]; exact ekT)

/-- Claim C1 (amended): for effective content extents of positive width
and height, below the degenerate-scale guard, whose outward expansion
by the back-projected border widths incurs no clamping, and whose
back-projected border widths are exact (each target border times the
content size is divisible by the target artwork size, so `round`
introduces no error), the crop-then-resize yields printed borders
exactly equal to the configured targets on all four sides — in
particular within the claimed ±1px.  Without the exactness condition
the half-pixel rounding error is magnified by the upscale factor and
can exceed 1px (see the counterexample). -/
theorem c1_border_accuracy (w h cx0 cy0 cx1 cy1 : Nat)
    (hcw : cx0 < cx1) (hch : cy0 < cy1)
    (hscw : cx1 - cx0 < final_artwork_width CARD_WIDTH_PX * 1000000)
    (hsch : cy1 - cy0 < final_artwork_height CARD_HEIGHT_PX * 1000000)
    (hdL : BORDER_LEFT_PX * (cx1 - cx0) % final_artwork_width CARD_WIDTH_PX = 0)
    (hdR : BORDER_RIGHT_PX * (cx1 - cx0) % final_artwork_width CARD_WIDTH_PX = 0)
    (hdT : BORDER_TOP_PX * (cy1 - cy0) % final_artwork_height CARD_HEIGHT_PX = 0)
    (hdB : BORDER_BOTTOM_PX * (cy1 - cy0) % final_artwork_height CARD_HEIGHT_PX = 0)
    (hnL : keep_border_px BORDER_LEFT_PX (final_artwork_width CARD_WIDTH_PX) (cx1 - cx0) ≤ cx0)
    (hnR : cx1 + keep_border_px BORDER_RIGHT_PX (final_artwork_width CARD_WIDTH_PX) (cx1 - cx0) ≤ w)
    (hnT : keep_border_px BORDER_TOP_PX (final_artwork_height CARD_HEIGHT_PX) (cy1 - cy0) ≤ cy0)
    (hnB : cy1 + keep_border_px BORDER_BOTTOM_PX (final_artwork_height CARD_HEIGHT_PX) (cy1 - cy0) ≤ h) :
    final_border_left w h CARD_WIDTH_PX CARD_HEIGHT_PX cx0 cy0 cx1 cy1 = (BORDER_LEFT_PX : ℚ) ∧
    final_border_right w h CARD_WIDTH_PX CARD_HEIGHT_PX cx0 cy0 cx1 cy1 = (BORDER_RIGHT_PX : ℚ) ∧
    final_border_top w h CARD_WIDTH_PX CARD_HEIGHT_PX cx0 cy0 cx1 cy1 = (BORDER_TOP_PX : ℚ) ∧
    final_border_bottom w h CARD_WIDTH_PX CARD_HEIGHT_PX cx0 cy0 cx1 cy1 = (BORDER_BOTTOM_PX : ℚ) := by
  have hfinW : 0 < final_artwork_width CARD_WIDTH_PX := by
    rw [final_artwork_width_card]
    omega
  have hfinH : 0 < final_artwork_height CARD_HEIGHT_PX := by
    rw [final_artwork_height_card]
    omega
  have ekL : keep_border_px BORDER_LEFT_PX (final_artwork_width CARD_WIDTH_PX) (cx1 - cx0) *
      final_artwork_width CARD_WIDTH_PX = BORDER_LEFT_PX * (cx1 - cx0) := by
    rw [keep_border_px_exact hfinW (by omega) hscw hdL]
    exact Nat.div_mul_cancel (Nat.dvd_of_mod_eq_zero hdL)
  have ekR : keep_border_px BORDER_RIGHT_PX (final_artwork_width CARD_WIDTH_PX) (cx1 - cx0) *
      final_artwork_width CARD_WIDTH_PX = BORDER_RIGHT_PX * (cx1 - cx0) := by
    rw [keep_border_px_exact hfinW (by omega) hscw hdR]
    exact Nat.div_mul_cancel (Nat.dvd_of_mod_eq_zero hdR)
  have ekT : keep_border_px BORDER_TOP_PX (final_artwork_height CARD_HEIGHT_PX) (cy1 - cy0) *
      final_artwork_height CARD_HEIGHT_PX = BORDER_TOP_PX * (cy1 - cy0) := by
    rw [keep_border_px_exact hfinH (by omega) hsch hdT]
    exact Nat.div_mul_cancel (Nat.dvd_of_mod_eq_zero hdT)
  have ekB : keep_border_px BORDER_BOTTOM_PX (final_artwork_height CARD_HEIGHT_PX) (cy1 - cy0) *
      final_artwork_height CARD_HEIGHT_PX = BORDER_BOTTOM_PX * (cy1 - cy0) := by
    rw [keep_border_px_exact hfinH (by omega) hsch hdB]
    exact Nat.div_mul_cancel (Nat.dvd_of_mod_eq_zero hdB)
  have hfaW : final_artwork_width CARD_WIDTH_PX =
      CARD_WIDTH_PX - BORDER_LEFT_PX - BORDER_RIGHT_PX := by decide
  have hfaH : final_artwork_height CARD_HEIGHT_PX =
      CARD_HEIGHT_PX - BORDER_TOP_PX - BORDER_BOTTOM_PX := by decide
  have hWle : BORDER_LEFT_PX + BORDER_RIGHT_PX ≤ CARD_WIDTH_PX := by decide
  have hHle : BORDER_TOP_PX + BORDER_BOTTOM_PX ≤ CARD_HEIGHT_PX := by decide
  exact ⟨final_border_left_exact w h CARD_WIDTH_PX CARD_HEIGHT_PX cx0 cy0 cx1 cy1
      hfaW hWle (by omega) ekL ekR hnL hnR,
    final_border_right_exact w h CARD_WIDTH_PX CARD_HEIGHT_PX cx0 cy0 cx1 cy1
      hfaW hWle (by omega) ekL ekR hnL hnR,
    final_border_top_exact w h CARD_WIDTH_PX CARD_HEIGHT_PX cx0 cy0 cx1 cy1
      hfaH hHle (by omega) ekT ekB hnT hnB,
    final_border_bottom_exact w h CARD_WIDTH_PX CARD_HEIGHT_PX cx0 cy0 cx1 cy1
      hfaH hHle (by omega) ekT ekB hnT hnB⟩

/-- Witness for C1 (amended) at content extents `(71, 71, 1429, 2003)`
inside a 1500 × 2100 image: content 1358 × 1932, back-projections
71/71/71/97 all exact, no clamping. -/
theorem c1_border_accuracy_witness :
    (71 : Nat) < 1429 ∧ (71 : Nat) < 2003 ∧
      final_border_left 1500 2100 CARD_WIDTH_PX CARD_HEIGHT_PX 71 71 1429 2003
        = (BORDER_LEFT_PX : ℚ) ∧
      final_border_bottom 1500 2100 CARD_WIDTH_PX CARD_HEIGHT_PX 71 71 1429 2003
        = (BORDER_BOTTOM_PX : ℚ) := by
  have h := c1_border_accuracy 1500 2100 71 71 1429 2003 (by decide) (by decide)
    (by decide) (by decide) (by decide) (by decide) (by decide) (by decide)
    (by decide) (by decide) (by decide) (by decide)
  exact ⟨by decide, by decide, h.1, h.2.2.2⟩

/-- Claim C1 counterexample: `imgA` is standard-classified, its
effective content extents `(14, 8, 16, 10)` have positive width and
height, the back-projected borders are all 0 so the expansion incurs no
clamping — yet the printed left border of the final card is 0 pixels,
not within ±1px of the 142-pixel target: the rounding error of the
back-projection (here `round(142 * 2 / 2716) = 0`) is magnified by the
upscale factor/scale. -/
theorem c1_border_accuracy_cex :
    determine_card_type imgA BLACK_BORDER_THRESHOLD EDGE_ZONE_CHECK_WIDTH_PX
        = CardType.standard ∧
    effective_extents imgA BLACK_BORDER_THRESHOLD EXTENDED_ART_SCAN_OFFSET_Y_PX
        CardType.standard = (14, 8, 16, 10) ∧
    (14 : Nat) < 16 ∧ (8 : Nat) < 10 ∧
    keep_border_px BORDER_LEFT_PX (final_artwork_width CARD_WIDTH_PX) (16 - 14) ≤ 14 ∧
    16 + keep_border_px BORDER_RIGHT_PX (final_artwork_width CARD_WIDTH_PX) (16 - 14)
      ≤ imgA.width ∧
    keep_border_px BORDER_TOP_PX (final_artwork_height CARD_HEIGHT_PX) (10 - 8) ≤ 8 ∧
    10 + keep_border_px BORDER_BOTTOM_PX (final_artwork_height CARD_HEIGHT_PX) (10 - 8)
      ≤ imgA.height ∧
    ¬ ((BORDER_LEFT_PX : ℚ) - 1 ≤
        final_border_left imgA.width imgA.height CARD_WIDTH_PX CARD_HEIGHT_PX 14 8 16 10) := by
  refine ⟨by decide, by decide, by decide, by decide, by decide, by decide, by decide,
    by decide, ?_⟩
  have hrect : proportional_crop_rect imgA.width imgA.height CARD_WIDTH_PX CARD_HEIGHT_PX
      14 8 16 10 = (14, 8, 16, 10) := by decide
  have h0 : final_border_left imgA.width imgA.height CARD_WIDTH_PX CARD_HEIGHT_PX
      14 8 16 10 = 0 := by
    unfold final_border_left
    rw [hrect]
    norm_num [scaled_border_px]
  rw [h0, BORDER_LEFT_PX_eq]
  norm_num

end Proxify
